import Mathlib

/-!
Verification development for the tari-crypto repository.

The only source file in the repository is the C demonstration program
src/libtari/demo.c, which calls four library functions (version,
random_keypair, sign, verify) declared in tari_crypto.h.  The body of
that cryptographic library is not part of the repository source tree,
so it is modelled here from the specification:

- the prime-order curve group of order L with generator G is embedded
  as the generic cyclic group of order L, namely the ring ZMod L with
  base point 1, point addition given by ring addition and scalar
  multiplication given by ring multiplication;
- byte encodings of scalars and points are KEY_LENGTH-byte
  little-endian base-256 strings, valid exactly when they are the
  canonical encoding of a residue below L;
- the cryptographic hash behind hash_to_scalar is modelled as a
  deterministic domain-separated serialisation of the ordered input
  parts into a natural number, reduced modulo L;
- the secure random source is modelled as an explicit stream of
  candidate draws; an exhausted stream models an unavailable entropy
  source.

The demo program itself (main and print_key of demo.c) is embedded
directly from the C source as a pure function from the results of the
library calls to the list of printed lines and the process exit code.
-/

namespace Tari

set_option maxRecDepth 8000

/-- A byte, as used in the KEY_LENGTH-wide buffers of the interface. -/
abbrev Byte := Fin 256

/-- An arbitrary-length byte string (keys, encoded points, messages). -/
abbrev Bytes := List Byte

/-- Error taxonomy of the specification (section 7). -/
inductive CryptoError where
  | EntropyUnavailable
  | InvalidOperand
  | InvalidEncoding
  | InvalidPrivateKey
deriving DecidableEq, Repr

/-- Value of a little-endian base-256 byte string. -/
def natOfBytes : Bytes → ℕ
  | [] => 0
  | b :: bs => b.val + 256 * natOfBytes bs

/-- Little-endian base-256 encoding of a natural number into a
fixed-width byte string (first argument: the width in bytes). -/
def natToBytes : ℕ → ℕ → Bytes
  | 0, _ => []
  | kl + 1, n => (⟨n % 256, Nat.mod_lt _ (by norm_num)⟩ : Byte) :: natToBytes kl (n / 256)

/-- Modelled from the spec: the scalar field is the integers modulo the
group order L; a scalar is a residue in the range zero to L excluded. -/
abbrev Scalar (L : ℕ) := ZMod L

/-- Modelled from the spec: the curve group of prime order L is
embedded as the generic cyclic group of order L, represented by
ZMod L written additively. -/
abbrev Point (L : ℕ) := ZMod L

/-- Modelled from the spec: the fixed base point G, the generator of
the prime-order group; in the generic cyclic group it is the residue
one. -/
def basePoint (L : ℕ) : Point L := 1

/-- Modelled from the spec: point addition of the curve group. -/
def pointAdd (L : ℕ) (p q : Point L) : Point L := p + q

/-- Modelled from the spec: scalar multiplication of a point by a
scalar; in the generic cyclic group this is ring multiplication. -/
def scalarMul (L : ℕ) (k : Scalar L) (p : Point L) : Point L := k * p

/-- Modelled from the spec: encode_scalar produces the canonical
fixed-width (KEY_LENGTH-byte) encoding of a scalar. -/
def encode_scalar (L KL : ℕ) (x : Scalar L) : Bytes := natToBytes KL x.val

/-- Modelled from the spec: decode_scalar validates that the bytes are
a KEY_LENGTH-byte canonical encoding of a residue below L and fails
with InvalidEncoding otherwise. -/
def decode_scalar (L KL : ℕ) (b : Bytes) : Except CryptoError (Scalar L) :=
  if b.length = KL ∧ natOfBytes b < L then .ok ((natOfBytes b : ℕ) : Scalar L)
  else .error .InvalidEncoding

/-- Modelled from the spec: encode_point produces the canonical
fixed-width (KEY_LENGTH-byte) compressed encoding of a point. -/
def encode_point (L KL : ℕ) (p : Point L) : Bytes := natToBytes KL p.val

/-- Modelled from the spec: decode_point validates that the bytes
represent a point actually on the curve and in the correct subgroup,
failing with InvalidEncoding otherwise; in the generic cyclic group
model the valid encodings are exactly the canonical KEY_LENGTH-byte
encodings of residues below L. -/
def decode_point (L KL : ℕ) (b : Bytes) : Except CryptoError (Point L) :=
  if b.length = KL ∧ natOfBytes b < L then .ok ((natOfBytes b : ℕ) : Point L)
  else .error .InvalidEncoding

/-- Absorb one byte into the hash accumulator.  The shift by 256 and
the offset by one make the absorbed stream decodable, so that the
serialisation of the parts is unambiguous. -/
def absorbByte (acc : ℕ) (b : Byte) : ℕ := acc * 256 + (b.val + 1)

/-- Absorb a whole byte string into the hash accumulator. -/
def absorbBytes (acc : ℕ) (p : Bytes) : ℕ := p.foldl absorbByte acc

/-- Modelled from the spec: the cryptographic hash core behind
hash_to_scalar.  It folds the ordered parts into a natural number with
a domain separator between consecutive parts, standing in for the
collision-resistant hash of the fixed, unambiguous, domain-separated
serialisation of the parts. -/
def hashParts : List Bytes → ℕ :=
  List.foldl (fun acc p => absorbBytes (acc * 256) p) 1

/-- Modelled from the spec: hash_to_scalar takes an ordered sequence
of byte strings, feeds them through the hash core in a fixed
domain-separated order and reduces the digest modulo L to obtain a
scalar. -/
def hash_to_scalar (L : ℕ) (parts : List Bytes) : Scalar L :=
  ((hashParts parts : ℕ) : Scalar L)

/-- Modelled from the spec: modular inversion over the scalar field;
inversion of the zero scalar is undefined and fails with an
InvalidOperand error rather than returning an arbitrary value. -/
def invert (L : ℕ) (x : Scalar L) : Except CryptoError (Scalar L) :=
  if x = 0 then .error .InvalidOperand else .ok x⁻¹

/-- Modelled from the spec: random_scalar samples uniformly from the
scalar range using a cryptographically secure random source, rejecting
and resampling on the zero scalar.  The source is modelled as an
explicit stream of raw draws; an exhausted stream models a source that
cannot produce output and fails with EntropyUnavailable. -/
def random_scalar (L : ℕ) : List ℕ → Except CryptoError (Scalar L)
  | [] => .error .EntropyUnavailable
  | d :: rest => if d % L = 0 then random_scalar L rest else .ok ((d : ℕ) : Scalar L)

/-- Modelled from the spec: random_keypair draws a non-zero private
scalar k from the secure random source and returns it with the public
point k times G. -/
def random_keypair (L : ℕ) (entropy : List ℕ) :
    Except CryptoError (Scalar L × Point L) :=
  match random_scalar L entropy with
  | .error e => .error e
  | .ok k => .ok (k, scalarMul L k (basePoint L))

/-- Modelled from the spec, section 4.5: sign fails with
InvalidPrivateKey on a zero private key, samples a fresh non-zero
nonce from the secure random source, computes R as nonce times G, the
challenge e as hash_to_scalar over the encodings of R and the public
key followed by the message, and the response s as nonce plus e times
k modulo L, returning the fixed-width encodings of R and s. -/
def sign (L KL : ℕ) (entropy : List ℕ) (k : Scalar L) (m : Bytes) :
    Except CryptoError (Bytes × Bytes) :=
  if k = 0 then .error .InvalidPrivateKey
  else
    match random_scalar L entropy with
    | .error e => .error e
    | .ok nonce =>
      let R := scalarMul L nonce (basePoint L)
      let rB := encode_point L KL R
      let pB := encode_point L KL (scalarMul L k (basePoint L))
      let e := hash_to_scalar L [rB, pB, m]
      .ok (rB, encode_scalar L KL (nonce + e * k))

/-- Modelled from the spec, section 4.6: verify decodes and validates
the public key, the nonce point R and the response scalar s, absorbing
any decoding failure into the boolean result false, recomputes the
challenge e as hash_to_scalar over R, the public key and the message,
and accepts exactly when s times G equals R plus e times the public
key.  It is a total boolean function of its byte inputs and never
raises. -/
def verify (L KL : ℕ) (pubB : Bytes) (m : Bytes) (rB sB : Bytes) : Bool :=
  match decode_point L KL pubB, decode_point L KL rB, decode_scalar L KL sB with
  | .ok P, .ok R, .ok s =>
    let e := hash_to_scalar L [rB, pubB, m]
    decide (scalarMul L s (basePoint L) = pointAdd L R (scalarMul L e P))
  | _, _, _ => false

/-- Hexadecimal digit character for a value below sixteen, uppercase,
as produced by the %02X format of demo.c. -/
def hexDigit (n : ℕ) : Char :=
  if n < 10 then Char.ofNat (48 + n) else Char.ofNat (55 + n)

/-- Two-character uppercase hexadecimal rendering of one byte, the
%02X conversion of demo.c. -/
def byteToHex (b : Byte) : String :=
  String.mk [hexDigit (b.val / 16), hexDigit (b.val % 16)]

/-- Embedding of print_key of src/libtari/demo.c: one output line
holding the bytes of the key rendered as %02X, in order. -/
def print_key (key : Bytes) : String :=
  String.join (key.map byteToHex)

/-- Embedding of main of src/libtari/demo.c as a pure function.  The
results of the four library calls (the version string, the generated
key pair, the signature components, and the integer result of verify)
are passed in as arguments; the value is the list of printed lines
paired with the process exit code.  The C program prints SUCCESS when
verify returns non-zero and FAILED otherwise, and always returns 0. -/
def main (ver : String) (priv_key pub_key r sig : Bytes) (verifyResult : ℤ) :
    List String × ℤ :=
  (["Tari Crypto (v" ++ ver ++ ")",
    "Keys generated",
    print_key priv_key,
    print_key pub_key,
    "Signed message",
    print_key r,
    print_key sig,
    "Check signature: " ++ (if verifyResult ≠ 0 then "SUCCESS" else "FAILED")],
   0)


/-- Decidable equality for Except values, so that concrete runs of the
fallible operations can be checked by evaluation. -/
instance instDecidableEqExcept {e a : Type} [DecidableEq e] [DecidableEq a] :
    DecidableEq (Except e a) := fun x y =>
  match x, y with
  | .error u, .error v =>
    if h : u = v then isTrue (by rw [h]) else isFalse (fun hc => h (Except.error.inj hc))
  | .error _, .ok _ => isFalse (fun hc => Except.noConfusion hc)
  | .ok _, .error _ => isFalse (fun hc => Except.noConfusion hc)
  | .ok u, .ok v =>
    if h : u = v then isTrue (by rw [h]) else isFalse (fun hc => h (Except.ok.inj hc))

theorem length_natToBytes (kl n : ℕ) : (natToBytes kl n).length = kl := by
  induction kl generalizing n with
  | zero => rfl
  | succ k ih => simp [natToBytes, ih]

theorem natOfBytes_natToBytes (kl n : ℕ) :
    natOfBytes (natToBytes kl n) = n % 256 ^ kl := by
  induction kl generalizing n with
  | zero => simp [natToBytes, natOfBytes, Nat.mod_one]
  | succ k ih =>
    have h1 := Nat.mod_mul_right_div_self n 256 (256 ^ k)
    have h2 := Nat.mod_mul_right_mod n 256 (256 ^ k)
    have h3 := Nat.div_add_mod (n % (256 * 256 ^ k)) 256
    simp only [natToBytes, natOfBytes, ih, pow_succ']
    omega

theorem natOfBytes_lt (bs : Bytes) : natOfBytes bs < 256 ^ bs.length := by
  induction bs with
  | nil => simp [natOfBytes]
  | cons b rest ih =>
    have hb : b.val < 256 := b.isLt
    simp only [natOfBytes, List.length_cons, pow_succ']
    omega

theorem natToBytes_natOfBytes (bs : Bytes) :
    natToBytes bs.length (natOfBytes bs) = bs := by
  induction bs with
  | nil => rfl
  | cons b rest ih =>
    have hb : b.val < 256 := b.isLt
    have hh : (b.val + 256 * natOfBytes rest) % 256 = b.val := by
      rw [Nat.add_mul_mod_self_left, Nat.mod_eq_of_lt hb]
    have hd : (b.val + 256 * natOfBytes rest) / 256 = natOfBytes rest := by
      rw [Nat.add_mul_div_left _ _ (by norm_num : (0:ℕ) < 256), Nat.div_eq_of_lt hb,
        zero_add]
    simp only [natOfBytes, List.length_cons, natToBytes, hh, hd, ih, Fin.eta]

theorem decode_point_encode_point {L KL : ℕ} [NeZero L] (hKL : L ≤ 256 ^ KL)
    (p : Point L) : decode_point L KL (encode_point L KL p) = .ok p := by
  have hval : p.val < L := ZMod.val_lt p
  have hlt : p.val < 256 ^ KL := lt_of_lt_of_le hval hKL
  have h1 : natOfBytes (natToBytes KL p.val) = p.val := by
    rw [natOfBytes_natToBytes, Nat.mod_eq_of_lt hlt]
  simp only [decode_point, encode_point, length_natToBytes, h1, hval, and_self,
    if_true, ZMod.natCast_zmod_val]

theorem decode_scalar_encode_scalar {L KL : ℕ} [NeZero L] (hKL : L ≤ 256 ^ KL)
    (x : Scalar L) : decode_scalar L KL (encode_scalar L KL x) = .ok x := by
  have hval : x.val < L := ZMod.val_lt x
  have hlt : x.val < 256 ^ KL := lt_of_lt_of_le hval hKL
  have h1 : natOfBytes (natToBytes KL x.val) = x.val := by
    rw [natOfBytes_natToBytes, Nat.mod_eq_of_lt hlt]
  simp only [decode_scalar, encode_scalar, length_natToBytes, h1, hval, and_self,
    if_true, ZMod.natCast_zmod_val]

theorem encode_point_of_decode {L KL : ℕ} {b : Bytes} {p : Point L}
    (h : decode_point L KL b = .ok p) : encode_point L KL p = b := by
  unfold decode_point at h
  by_cases hc : b.length = KL ∧ natOfBytes b < L
  · rw [if_pos hc] at h
    obtain ⟨hlen, hlt⟩ := hc
    injection h with h
    subst h
    unfold encode_point
    rw [ZMod.val_cast_of_lt hlt, ← hlen, natToBytes_natOfBytes]
  · rw [if_neg hc] at h
    exact absurd h (by simp)

theorem random_scalar_ok {L : ℕ} [NeZero L] :
    ∀ (entropy : List ℕ) (x : Scalar L), random_scalar L entropy = .ok x → x ≠ 0
  | [], x, h => by simp [random_scalar] at h
  | d :: rest, x, h => by
    by_cases hd : d % L = 0
    · exact random_scalar_ok rest x (by simpa [random_scalar, hd] using h)
    · simp only [random_scalar, hd, if_false, ite_false] at h
      injection h with h
      subst h
      intro h0
      have hdvd : L ∣ d := (ZMod.natCast_zmod_eq_zero_iff_dvd d L).mp h0
      obtain ⟨c, rfl⟩ := hdvd
      exact hd (Nat.mul_mod_right L c)

theorem verify_ok_eq {L KL : ℕ} {pubB m rB sB : Bytes} {P R : Point L} {s : Scalar L}
    (hP : decode_point L KL pubB = .ok P) (hR : decode_point L KL rB = .ok R)
    (hs : decode_scalar L KL sB = .ok s) :
    verify L KL pubB m rB sB =
      decide (scalarMul L s (basePoint L) =
        pointAdd L R (scalarMul L (hash_to_scalar L [rB, pubB, m]) P)) := by
  unfold verify
  rw [hP, hR, hs]

theorem verify_eq_false_of_fail {L KL : ℕ} {pubB m rB sB : Bytes}
    (h : decode_point L KL pubB = .error CryptoError.InvalidEncoding ∨
         decode_point L KL rB = .error CryptoError.InvalidEncoding ∨
         decode_scalar L KL sB = .error CryptoError.InvalidEncoding) :
    verify L KL pubB m rB sB = false := by
  rcases hP : decode_point L KL pubB with e1 | P <;>
    rcases hR : decode_point L KL rB with e2 | R <;>
      rcases hs : decode_scalar L KL sB with e3 | s <;>
        (unfold verify; rw [hP, hR, hs])
  rcases h with h | h | h
  · rw [hP] at h; exact absurd h (by simp)
  · rw [hR] at h; exact absurd h (by simp)
  · rw [hs] at h; exact absurd h (by simp)

theorem random_keypair_ok_iff {L : ℕ} {entropy : List ℕ} {k : Scalar L} {P : Point L} :
    random_keypair L entropy = .ok (k, P) ↔
      random_scalar L entropy = .ok k ∧ P = scalarMul L k (basePoint L) := by
  unfold random_keypair
  rcases h : random_scalar L entropy with e | k0 <;> simp
  rintro rfl
  exact eq_comm

theorem sign_ok_of_nonce {L KL : ℕ} {entropy : List ℕ} {k : Scalar L} {m : Bytes}
    (hk : k ≠ 0) {nonce : Scalar L} (hn : random_scalar L entropy = .ok nonce) :
    sign L KL entropy k m =
      .ok (encode_point L KL (scalarMul L nonce (basePoint L)),
        encode_scalar L KL (nonce +
          hash_to_scalar L [encode_point L KL (scalarMul L nonce (basePoint L)),
            encode_point L KL (scalarMul L k (basePoint L)), m] * k)) := by
  unfold sign
  rw [if_neg hk, hn]

theorem random_scalar_exhausted {L : ℕ} :
    ∀ entropy : List ℕ, (∀ d ∈ entropy, d % L = 0) →
      random_scalar L entropy = .error CryptoError.EntropyUnavailable
  | [], _ => rfl
  | d :: rest, h => by
    have hd : d % L = 0 := h d (List.mem_cons_self d rest)
    simp only [random_scalar, hd, if_true, ite_true]
    exact random_scalar_exhausted rest (fun x hx => h x (List.mem_cons_of_mem d hx))

theorem schnorr_eq_cancel {L : ℕ} (nonce k e1 e2 X : ZMod L)
    (h : scalarMul L (nonce + e1 * k) (basePoint L) =
      pointAdd L (scalarMul L nonce (basePoint L)) (scalarMul L e2 X)) :
    scalarMul L e2 X = scalarMul L e1 (scalarMul L k (basePoint L)) := by
  simp only [scalarMul, pointAdd, basePoint, mul_one] at h ⊢
  exact (add_left_cancel h).symm

/-- Claim C1: for every keypair (k, P) produced by random_keypair and every
message m, verifying the signature produced by sign on k and m against P and
m returns true. -/
theorem sign_verify_correct (L KL : ℕ) (hL : 1 < L) (hKL : L ≤ 256 ^ KL)
    (entropyK entropyN : List ℕ) (k : Scalar L) (P : Point L) (m rB sB : Bytes)
    (hkp : random_keypair L entropyK = .ok (k, P))
    (hsig : sign L KL entropyN k m = .ok (rB, sB)) :
    verify L KL (encode_point L KL P) m rB sB = true := by
  haveI : NeZero L := ⟨by omega⟩
  obtain ⟨hks, rfl⟩ := random_keypair_ok_iff.mp hkp
  have hk : k ≠ 0 := random_scalar_ok _ _ hks
  rcases hn : random_scalar L entropyN with e | nonce
  · rw [sign, if_neg hk, hn] at hsig
    exact absurd hsig (by simp)
  · rw [sign_ok_of_nonce hk hn] at hsig
    injection hsig with hpair
    obtain ⟨hrB, hsB⟩ := Prod.ext_iff.mp hpair
    simp only at hrB hsB
    subst hrB hsB
    rw [verify_ok_eq (decode_point_encode_point hKL _) (decode_point_encode_point hKL _)
      (decode_scalar_encode_scalar hKL _)]
    rw [decide_eq_true_iff]
    unfold scalarMul pointAdd basePoint
    ring

/-- Witness for C1 at the group of order 101 with two-byte encodings. -/
theorem sign_verify_correct_witness :
    random_keypair 101 [5] = .ok ((5 : Scalar 101), (5 : Point 101)) ∧
    sign 101 2 [7] (5 : Scalar 101) [(0 : Byte)] =
      .ok ([(7 : Byte), (0 : Byte)], [(56 : Byte), (0 : Byte)]) ∧
    verify 101 2 (encode_point 101 2 (5 : Point 101)) [(0 : Byte)]
      [(7 : Byte), (0 : Byte)] [(56 : Byte), (0 : Byte)] = true :=
  ⟨by decide, by decide,
    sign_verify_correct 101 2 (by norm_num) (by norm_num) [5] [7] 5 5 [(0 : Byte)]
      [(7 : Byte), (0 : Byte)] [(56 : Byte), (0 : Byte)] (by decide) (by decide)⟩

/-- Claim C2: for every public point P, message m and signature whose
components decode to a valid point R and a valid scalar s, verify returns
true if and only if s times G equals R plus e times P, where e is
hash_to_scalar of R, P and m. -/
theorem verify_iff_equation (L KL : ℕ) (pubB m rB sB : Bytes) (P R : Point L)
    (s : Scalar L) (hP : decode_point L KL pubB = .ok P)
    (hR : decode_point L KL rB = .ok R) (hs : decode_scalar L KL sB = .ok s) :
    (verify L KL pubB m rB sB = true ↔
      scalarMul L s (basePoint L) =
        pointAdd L R (scalarMul L (hash_to_scalar L [rB, pubB, m]) P)) := by
  rw [verify_ok_eq hP hR hs, decide_eq_true_iff]

/-- Witness for C2 at concrete decodable inputs. -/
theorem verify_iff_equation_witness :
    decode_point 101 2 [(9 : Byte), (0 : Byte)] = .ok (9 : Point 101) ∧
    (verify 101 2 [(9 : Byte), (0 : Byte)] [] [(7 : Byte), (0 : Byte)]
        [(56 : Byte), (0 : Byte)] = true ↔
      scalarMul 101 (56 : Scalar 101) (basePoint 101) =
        pointAdd 101 (7 : Point 101)
          (scalarMul 101
            (hash_to_scalar 101 [[(7 : Byte), (0 : Byte)], [(9 : Byte), (0 : Byte)], []])
            (9 : Point 101))) :=
  ⟨by decide,
    verify_iff_equation 101 2 [(9 : Byte), (0 : Byte)] [] [(7 : Byte), (0 : Byte)]
      [(56 : Byte), (0 : Byte)] 9 7 56 (by decide) (by decide) (by decide)⟩

/-- Claim C3: for every valid non-zero private scalar k and message m, sign
draws a fresh non-zero nonce from the random source and returns the pair
(R, s) with R equal to nonce times G, e equal to hash_to_scalar of R, the
public key of k and m, and s equal to nonce plus e times k reduced modulo
the group order; the output is a deterministic function of (nonce, k, m). -/
theorem sign_spec (L KL : ℕ) (hL : 1 < L) (entropy : List ℕ) (k : Scalar L)
    (hk : k ≠ 0) (m : Bytes) (nonce : Scalar L)
    (hn : random_scalar L entropy = .ok nonce) :
    nonce ≠ 0 ∧
    sign L KL entropy k m =
      .ok (encode_point L KL (scalarMul L nonce (basePoint L)),
        encode_scalar L KL (nonce +
          hash_to_scalar L [encode_point L KL (scalarMul L nonce (basePoint L)),
            encode_point L KL (scalarMul L k (basePoint L)), m] * k)) ∧
    (∀ entropy2 : List ℕ, random_scalar L entropy2 = .ok nonce →
      sign L KL entropy2 k m = sign L KL entropy k m) := by
  haveI : NeZero L := ⟨by omega⟩
  refine ⟨random_scalar_ok _ _ hn, sign_ok_of_nonce hk hn, ?_⟩
  intro entropy2 hn2
  rw [sign_ok_of_nonce hk hn2, sign_ok_of_nonce hk hn]

/-- Witness for C3 at concrete inputs. -/
theorem sign_spec_witness :
    (7 : Scalar 101) ≠ 0 ∧
    sign 101 2 [7] (5 : Scalar 101) [(0 : Byte)] =
      .ok (encode_point 101 2 (scalarMul 101 (7 : Scalar 101) (basePoint 101)),
        encode_scalar 101 2 ((7 : Scalar 101) +
          hash_to_scalar 101
            [encode_point 101 2 (scalarMul 101 (7 : Scalar 101) (basePoint 101)),
             encode_point 101 2 (scalarMul 101 (5 : Scalar 101) (basePoint 101)),
             [(0 : Byte)]] * 5)) ∧
    (∀ entropy2 : List ℕ, random_scalar 101 entropy2 = .ok (7 : Scalar 101) →
      sign 101 2 entropy2 (5 : Scalar 101) [(0 : Byte)] =
        sign 101 2 [7] (5 : Scalar 101) [(0 : Byte)]) :=
  sign_spec 101 2 (by norm_num) [7] 5 (by decide) [(0 : Byte)] 7 (by decide)

/-- Claim C4: verify is total over byte input: it is a boolean-valued
function by construction, and on any input whose public key, R component or
s component fails to decode it returns false rather than propagating the
decoding error. -/
theorem verify_total_on_malformed (L KL : ℕ) (pubB m rB sB : Bytes)
    (h : decode_point L KL pubB = .error CryptoError.InvalidEncoding ∨
         decode_point L KL rB = .error CryptoError.InvalidEncoding ∨
         decode_scalar L KL sB = .error CryptoError.InvalidEncoding) :
    verify L KL pubB m rB sB = false :=
  verify_eq_false_of_fail h

/-- Witness for C4: a public key whose two bytes encode a value outside the
group still yields the boolean false. -/
theorem verify_total_on_malformed_witness :
    verify 101 2 [(255 : Byte), (255 : Byte)] [] [(7 : Byte), (0 : Byte)]
      [(56 : Byte), (0 : Byte)] = false :=
  verify_total_on_malformed 101 2 [(255 : Byte), (255 : Byte)] [] [(7 : Byte), (0 : Byte)]
    [(56 : Byte), (0 : Byte)] (Or.inl (by decide))

/-- Claim C5: point encoding round-trips in both directions: decoding the
encoding of any point yields that point, the encoding of a successfully
decoded byte string is that byte string, and decode_point fails with
InvalidEncoding on any byte string that is not a valid encoding. -/
theorem point_codec_round_trip (L KL : ℕ) (hL : 1 < L) (hKL : L ≤ 256 ^ KL) :
    (∀ p : Point L, decode_point L KL (encode_point L KL p) = .ok p) ∧
    (∀ (b : Bytes) (p : Point L), decode_point L KL b = .ok p →
      encode_point L KL p = b) ∧
    (∀ b : Bytes, ¬(b.length = KL ∧ natOfBytes b < L) →
      decode_point L KL b = .error CryptoError.InvalidEncoding) := by
  haveI : NeZero L := ⟨by omega⟩
  refine ⟨fun p => decode_point_encode_point hKL p,
    fun b p h => encode_point_of_decode h, fun b hb => ?_⟩
  unfold decode_point
  rw [if_neg hb]

/-- Witness for C5 at the group of order 101 with two-byte encodings. -/
theorem point_codec_round_trip_witness :
    decode_point 101 2 (encode_point 101 2 (42 : Point 101)) = .ok (42 : Point 101) ∧
    decode_point 101 2 [(255 : Byte), (255 : Byte)] =
      .error CryptoError.InvalidEncoding :=
  ⟨(point_codec_round_trip 101 2 (by norm_num) (by norm_num)).1 42,
   (point_codec_round_trip 101 2 (by norm_num) (by norm_num)).2.2
     [(255 : Byte), (255 : Byte)] (by decide)⟩

/-- Counterexample to claim C6 as stated: at group order 101 with two-byte
encodings, the honest signature of the one-byte message 0 under private key
5 and nonce 7 is also accepted for the distinct one-byte message 101 (the
challenge hashes of the two messages collide modulo the group order), and it
is also accepted under the independently generated distinct public key of
the private scalar 95. -/
theorem tamper_rejection_cex :
    sign 101 2 [7] (5 : Scalar 101) [(0 : Byte)] =
      .ok ([(7 : Byte), (0 : Byte)], [(56 : Byte), (0 : Byte)]) ∧
    ([(101 : Byte)] : Bytes) ≠ [(0 : Byte)] ∧
    verify 101 2 (encode_point 101 2 (scalarMul 101 (5 : Scalar 101) (basePoint 101)))
      [(101 : Byte)] [(7 : Byte), (0 : Byte)] [(56 : Byte), (0 : Byte)] = true ∧
    random_keypair 101 [95] = .ok ((95 : Scalar 101), (95 : Point 101)) ∧
    (95 : Point 101) ≠ scalarMul 101 (5 : Scalar 101) (basePoint 101) ∧
    verify 101 2 (encode_point 101 2 (95 : Point 101)) [(0 : Byte)]
      [(7 : Byte), (0 : Byte)] [(56 : Byte), (0 : Byte)] = true := by
  refine ⟨by decide, by decide, by decide, by decide, by decide, by decide⟩

/-- Claim C6 amended: for every honest signature (R, s) produced with nonce
and private key k on message m, and every public key X and message m2,
verify on X, m2, (R, s) returns false whenever the recomputed challenge
contribution hash_to_scalar(R, X, m2) times X differs from
hash_to_scalar(R, P, m) times P, where P is the public key of k.  The two
tampering scenarios of the original claim are instances whenever the
challenge hashes do not collide. -/
theorem tamper_rejection_amended (L KL : ℕ) (hL : 1 < L) (hKL : L ≤ 256 ^ KL)
    (k nonce : Scalar L) (m m2 : Bytes) (X : Point L)
    (hne : scalarMul L
        (hash_to_scalar L [encode_point L KL (scalarMul L nonce (basePoint L)),
          encode_point L KL X, m2]) X ≠
      scalarMul L
        (hash_to_scalar L [encode_point L KL (scalarMul L nonce (basePoint L)),
          encode_point L KL (scalarMul L k (basePoint L)), m])
        (scalarMul L k (basePoint L))) :
    verify L KL (encode_point L KL X) m2
      (encode_point L KL (scalarMul L nonce (basePoint L)))
      (encode_scalar L KL (nonce +
        hash_to_scalar L [encode_point L KL (scalarMul L nonce (basePoint L)),
          encode_point L KL (scalarMul L k (basePoint L)), m] * k)) = false := by
  haveI : NeZero L := ⟨by omega⟩
  rw [verify_ok_eq (decode_point_encode_point hKL _) (decode_point_encode_point hKL _)
    (decode_scalar_encode_scalar hKL _)]
  rw [decide_eq_false_iff_not]
  intro hEq
  exact hne (schnorr_eq_cancel nonce k _ _ X hEq)

/-- Witness for the amended C6: tampering the message from byte 0 to byte 1
changes the challenge and the signature is rejected. -/
theorem tamper_rejection_amended_witness :
    scalarMul 101
        (hash_to_scalar 101 [encode_point 101 2 (scalarMul 101 (7 : Scalar 101) (basePoint 101)),
          encode_point 101 2 (scalarMul 101 (5 : Scalar 101) (basePoint 101)), [(1 : Byte)]])
        (scalarMul 101 (5 : Scalar 101) (basePoint 101)) ≠
      scalarMul 101
        (hash_to_scalar 101 [encode_point 101 2 (scalarMul 101 (7 : Scalar 101) (basePoint 101)),
          encode_point 101 2 (scalarMul 101 (5 : Scalar 101) (basePoint 101)), [(0 : Byte)]])
        (scalarMul 101 (5 : Scalar 101) (basePoint 101)) ∧
    verify 101 2 (encode_point 101 2 (scalarMul 101 (5 : Scalar 101) (basePoint 101)))
      [(1 : Byte)]
      (encode_point 101 2 (scalarMul 101 (7 : Scalar 101) (basePoint 101)))
      (encode_scalar 101 2 ((7 : Scalar 101) +
        hash_to_scalar 101 [encode_point 101 2 (scalarMul 101 (7 : Scalar 101) (basePoint 101)),
          encode_point 101 2 (scalarMul 101 (5 : Scalar 101) (basePoint 101)), [(0 : Byte)]] * 5)) =
      false :=
  ⟨by decide,
    tamper_rejection_amended 101 2 (by norm_num) (by norm_num) 5 7 [(0 : Byte)] [(1 : Byte)]
      (scalarMul 101 (5 : Scalar 101) (basePoint 101)) (by decide)⟩

/-- Claim C7: random_keypair only returns pairs (k, P) with k non-zero and
P equal to k times G, a non-identity point; when the random source cannot
produce a usable draw it fails with EntropyUnavailable. -/
theorem random_keypair_spec (L : ℕ) (hL : 1 < L) (entropy : List ℕ) :
    (∀ (k : Scalar L) (P : Point L), random_keypair L entropy = .ok (k, P) →
      k ≠ 0 ∧ P = scalarMul L k (basePoint L) ∧ P ≠ 0) ∧
    ((∀ d ∈ entropy, d % L = 0) →
      random_keypair L entropy = .error CryptoError.EntropyUnavailable) := by
  haveI : NeZero L := ⟨by omega⟩
  constructor
  · intro k P h
    obtain ⟨hks, rfl⟩ := random_keypair_ok_iff.mp h
    have hk := random_scalar_ok _ _ hks
    refine ⟨hk, rfl, ?_⟩
    simp only [scalarMul, basePoint, mul_one]
    exact hk
  · intro hall
    unfold random_keypair
    rw [random_scalar_exhausted entropy hall]

/-- Witness for C7: a successful draw after one rejected zero draw, and an
exhausted source of draws that are all zero modulo the group order. -/
theorem random_keypair_spec_witness :
    ((5 : Scalar 101) ≠ 0 ∧ (5 : Point 101) = scalarMul 101 5 (basePoint 101) ∧
      (5 : Point 101) ≠ 0) ∧
    random_keypair 101 [0, 202] = .error CryptoError.EntropyUnavailable :=
  ⟨(random_keypair_spec 101 (by norm_num) [0, 5]).1 5 5 (by decide),
   (random_keypair_spec 101 (by norm_num) [0, 202]).2 (by decide)⟩

/-- Claim C8: modular inversion of the zero scalar fails with an
InvalidOperand error, and on every non-zero scalar the inversion succeeds;
the error branch is reachable only on the zero operand. -/
theorem invert_spec (L : ℕ) (x : Scalar L) (hx : x ≠ 0) :
    invert L 0 = .error CryptoError.InvalidOperand ∧ invert L x = .ok x⁻¹ := by
  constructor
  · unfold invert
    rw [if_pos rfl]
  · unfold invert
    rw [if_neg hx]

/-- Witness for C8 at the scalar 3 in the field of order 101. -/
theorem invert_spec_witness :
    invert 101 0 = .error CryptoError.InvalidOperand ∧
    invert 101 (3 : Scalar 101) = .ok (3 : Scalar 101)⁻¹ :=
  invert_spec 101 3 (by decide)

/-- Claim C9: hash_to_scalar is deterministic: two calls on identical
ordered sequences of input byte strings produce identical scalars. -/
theorem hash_to_scalar_deterministic (L : ℕ) (parts1 parts2 : List Bytes)
    (h : parts1 = parts2) : hash_to_scalar L parts1 = hash_to_scalar L parts2 := by
  rw [h]

/-- Witness for C9 on a concrete part list. -/
theorem hash_to_scalar_deterministic_witness :
    hash_to_scalar 101 [[(7 : Byte), (0 : Byte)], [(3 : Byte)]] =
      hash_to_scalar 101 [[(7 : Byte), (0 : Byte)], [(3 : Byte)]] :=
  hash_to_scalar_deterministic 101 _ _ rfl

/-- Claim C10: the main function of demo.c returns exit status 0 regardless
of the result of verify; the verification outcome only selects between the
printed texts SUCCESS (verify non-zero) and FAILED (verify zero). -/
theorem main_exit_zero (ver : String) (priv_key pub_key r sig : Bytes) (vr : ℤ) :
    (main ver priv_key pub_key r sig vr).2 = 0 ∧
    (main ver priv_key pub_key r sig vr).1 =
      ["Tari Crypto (v" ++ ver ++ ")",
       "Keys generated",
       print_key priv_key,
       print_key pub_key,
       "Signed message",
       print_key r,
       print_key sig,
       "Check signature: " ++ (if vr ≠ 0 then "SUCCESS" else "FAILED")] :=
  ⟨rfl, rfl⟩

end Tari
